import Mathlib

/-!
Verification of the tabular data analysis engine of a browser-based
spreadsheet viewer (column type classification, descriptive statistics and
chart aggregation).  The definitions below are a shallow embedding of the
TypeScript source:

* `isNumericColumn`, `mkNumericStats`, `catStats`, `columnStats` embed the
  classifier and the statistics computation of `AnalysisPanel.tsx`;
* `chartData` (with `barLineData` / `pieData`) embeds the aggregation of
  `ChartViewer.tsx`.

Modelling conventions:

* JavaScript numbers are modelled exactly as rationals (`ℚ`); floating
  point rounding is outside the model.  `Math.sqrt` is modelled as
  `Real.sqrt` applied to the exactly-computed variance in theorem
  statements (the record stores the variance, which the code computes on
  the line before taking the square root).
* A cell value is a number, a string, or JS `null`; an absent key
  (JS `undefined`) is `Option.none` at lookup time.
* `Number(-)` on strings is modelled for decimal literals (optional sign,
  fraction, exponent, surrounding whitespace, empty string ↦ 0); hex,
  octal, binary and `Infinity` literals are outside the model — no
  verified claim depends on them.
* String rendering of non-integral numbers is model-specific
  (`jsStringOfRat`); the verified claims do not depend on it.  Integral
  numbers render as their decimal numeral, as in JS.
* Plain JS objects used as accumulator maps are modelled as
  insertion-ordered association lists of own keys, and `Object.values` is
  modelled with the ECMAScript own-property-key ordering: array-index
  keys (canonical numerals below 2^32 − 1) ascending first, then the
  remaining string keys in insertion order.
* The grouping object is a plain `{}`, so `groupedData[xValue]` also sees
  the inherited, truthy `Object.prototype` members: for an x-key naming
  one of them (`"toString"`, `"constructor"`, `"__proto__"`, …) the
  `if (!groupedData[xValue])` test skips initialisation, the `+=` writes
  land on the inherited member, no own key is ever created, and
  `Object.values` omits the group.  The model keeps the own-key map
  unchanged for such rows — exact for the returned data; the mutation of
  the shared prototype member (invisible in the result) is outside the
  pure model.
-/

namespace Excel

/-- A loosely-typed cell value: a JS number (modelled as `ℚ`), a string,
or JS `null`.  JS `undefined` (absent key) is `Option.none` at lookup. -/
inductive Value where
  | num (q : ℚ)
  | str (s : String)
  | vnull
deriving Repr, DecidableEq

/-- A row: a mapping from column name to value, as produced by the
spreadsheet parser (JS object ⇒ association list with distinct keys). -/
abbrev Row := List (String × Value)

/-- `row[column]`: first binding of the column name, `none` = `undefined`. -/
def getVal (r : Row) (c : String) : Option Value :=
  (r.find? (fun p => p.1 == c)).map Prod.snd

/-- `value === undefined || value === null || value === ''`. -/
def isEmptyCell : Option Value → Bool
  | none => true
  | some Value.vnull => true
  | some (Value.str s) => s == ""
  | some (Value.num _) => false

/-- `typeof value === 'number'`. -/
def jsTypeofNumber : Option Value → Bool
  | some (Value.num _) => true
  | _ => false

/-- Numeric value of a digit character. -/
def digitVal (c : Char) : Nat := c.toNat - 48

/-- Decimal value of a digit string. -/
def digitsToNat (cs : List Char) : Nat :=
  cs.foldl (fun n c => n * 10 + digitVal c) 0

/-- A non-empty all-digit character list, as a `Nat`. -/
def parseDigitsAll (cs : List Char) : Option Nat :=
  if cs.isEmpty || !(cs.all Char.isDigit) then none else some (digitsToNat cs)

/-- Exponent digits with optional sign. -/
def parseSignedDigits : List Char → Option Int
  | '+' :: rest => (parseDigitsAll rest).map Int.ofNat
  | '-' :: rest => (parseDigitsAll rest).map (fun n => -(n : Int))
  | rest => (parseDigitsAll rest).map Int.ofNat

/-- Trailing exponent part: empty, or `e`/`E` followed by signed digits. -/
def parseExpPart : List Char → Option Int
  | [] => some 0
  | 'e' :: rest => parseSignedDigits rest
  | 'E' :: rest => parseSignedDigits rest
  | _ => none

/-- Scale a rational by a power of ten. -/
def applyExp (q : ℚ) (e : Int) : ℚ :=
  if 0 ≤ e then q * 10 ^ e.toNat else q / 10 ^ (-e).toNat

/-- Unsigned decimal literal: digits, optional fraction, optional exponent. -/
def parseUnsigned (cs : List Char) : Option ℚ :=
  let intDigits := cs.takeWhile Char.isDigit
  let rest := cs.dropWhile Char.isDigit
  match rest with
  | '.' :: rest2 =>
      let fracDigits := rest2.takeWhile Char.isDigit
      let rest3 := rest2.dropWhile Char.isDigit
      if intDigits.isEmpty && fracDigits.isEmpty then none
      else
        (parseExpPart rest3).map (fun e =>
          applyExp
            ((digitsToNat intDigits : ℚ)
              + (digitsToNat fracDigits : ℚ) / 10 ^ fracDigits.length) e)
  | _ =>
      if intDigits.isEmpty then none
      else (parseExpPart rest).map (fun e => applyExp (digitsToNat intDigits : ℚ) e)

/-- Whitespace stripped by JS `Number(-)` (the common ASCII subset). -/
def jsWhitespace (c : Char) : Bool :=
  c == ' ' || c == '\t' || c == '\n' || c == '\r'

/-- Strip leading and trailing whitespace from a character list. -/
def trimChars (cs : List Char) : List Char :=
  ((cs.dropWhile jsWhitespace).reverse.dropWhile jsWhitespace).reverse

/-- JS `Number(s)` for a string: trim whitespace, empty ↦ 0, otherwise a
signed decimal literal; `none` models `NaN`. -/
def strToNumber (s : String) : Option ℚ :=
  match trimChars s.toList with
  | [] => some 0
  | '+' :: rest => parseUnsigned rest
  | '-' :: rest => (parseUnsigned rest).map Neg.neg
  | cs => parseUnsigned cs

/-- JS `Number(v)` on a cell: `undefined ↦ NaN` (`none`), `null ↦ 0`,
numbers unchanged, strings via `strToNumber`. -/
def jsNumber : Option Value → Option ℚ
  | none => none
  | some Value.vnull => some 0
  | some (Value.num q) => some q
  | some (Value.str s) => strToNumber s

/-- Decimal rendering of a rational.  Integral values render as in JS;
the non-integral case is a model-specific total extension. -/
def jsStringOfRat (q : ℚ) : String :=
  if q.den = 1 then toString q.num
  else toString q.num ++ "/" ++ toString q.den

/-- JS `String(v)`. -/
def jsString : Option Value → String
  | none => "undefined"
  | some Value.vnull => "null"
  | some (Value.str s) => s
  | some (Value.num q) => jsStringOfRat q

/-- All-digit string as a `Nat` (no sign, no other characters). -/
def strToNat? (s : String) : Option Nat :=
  let cs := s.toList
  if cs.isEmpty || !(cs.all Char.isDigit) then none else some (digitsToNat cs)

/-- ECMAScript array-index key: the canonical decimal numeral of some
`n < 2^32 − 1`. -/
def isArrayIndex (s : String) : Bool :=
  match strToNat? s with
  | some n => (toString n == s) && decide (n < 4294967295)
  | none => false

/-- Numeric value of an array-index key (0 on other strings). -/
def keyNat (s : String) : Nat := (strToNat? s).getD 0

/-- Per-sample-value test of the classifier (`AnalysisPanel.tsx:41-42`):
`value === undefined || value === null || value === '' ||
 (typeof value === 'number' || !isNaN(Number(value)))`. -/
def sampleOk (v : Option Value) : Bool :=
  isEmptyCell v || jsTypeofNumber v || (jsNumber v).isSome

/-- `isNumericColumn` (`AnalysisPanel.tsx:36-44`): a column is numeric when
every value among the first five rows passes `sampleOk`; an empty dataset
yields `false`. -/
def isNumericColumn (data : List Row) (col : String) : Bool :=
  if data.isEmpty then false
  else (data.take 5).all (fun row => sampleOk (getVal row col))

/-- Numeric-variant statistics record (`AnalysisPanel.tsx:104-117`).  The
code stores `stdDev = Math.sqrt(variance)`; the record keeps the exactly
computed `variance` and theorems speak about `Real.sqrt` of it. -/
structure NumericStats where
  count : Nat
  emptyCount : Nat
  min : ℚ
  max : ℚ
  range : ℚ
  sum : ℚ
  mean : ℚ
  median : ℚ
  variance : ℚ
  q1 : ℚ
  q3 : ℚ
deriving Repr, DecidableEq

/-- Categorical-variant statistics record (`AnalysisPanel.tsx:153-161`). -/
structure CatStats where
  count : Nat
  emptyCount : Nat
  uniqueCount : Nat
  mode : String
  modeFrequency : Nat
  frequencies : List (String × Nat)
deriving Repr, DecidableEq

/-- The tagged statistics result. -/
inductive Stats where
  | numeric (s : NumericStats)
  | categorical (s : CatStats)
deriving Repr, DecidableEq

/-- `Math.min(...l)` for a non-empty list (0 on `[]`, unused there). -/
def listMin : List ℚ → ℚ
  | [] => 0
  | v :: rest => rest.foldl min v

/-- `Math.max(...l)` for a non-empty list (0 on `[]`, unused there). -/
def listMax : List ℚ → ℚ
  | [] => 0
  | v :: rest => rest.foldl max v

/-- `data.map(row => Number(row[col])).filter(val => !isNaN(val))`
(`AnalysisPanel.tsx:76-78`). -/
def validValues (data : List Row) (col : String) : List ℚ :=
  (data.map (fun row => jsNumber (getVal row col))).filterMap id

/-- `[...validValues].sort((a, b) => a - b)`: ascending stable sort
(`AnalysisPanel.tsx:86`). -/
def sortedVals (data : List Row) (col : String) : List ℚ :=
  List.insertionSort (fun a b : ℚ => a ≤ b) (validValues data col)

/-- The numeric statistics record computed on a column with at least one
valid value (`AnalysisPanel.tsx:82-117`). -/
def mkNumericStats (data : List Row) (col : String) : NumericStats :=
  let vals := validValues data col
  let n := vals.length
  let sorted := sortedVals data col
  let mean := vals.sum / (n : ℚ)
  { count := n
    emptyCount := data.length - n
    min := listMin vals
    max := listMax vals
    range := listMax vals - listMin vals
    sum := vals.sum
    mean := mean
    median :=
      if n % 2 = 0 then (sorted.getD (n / 2 - 1) 0 + sorted.getD (n / 2) 0) / 2
      else sorted.getD (n / 2) 0
    variance := ((vals.map (fun v => (v - mean) ^ 2)).sum) / (n : ℚ)
    q1 := sorted.getD (n / 4) 0
    q3 := sorted.getD (3 * n / 4) 0 }

/-- `valueMap.set(strValue, (valueMap.get(strValue) || 0) + 1)` on an
insertion-ordered map (`AnalysisPanel.tsx:130`). -/
def insertCount : List (String × Nat) → String → List (String × Nat)
  | [], k => [(k, 1)]
  | (k0, n) :: rest, k =>
      if k0 == k then (k0, n + 1) :: rest else (k0, n) :: insertCount rest k

/-- One step of the categorical `data.forEach` loop
(`AnalysisPanel.tsx:124-132`): empty values bump the empty counter, other
values bump their frequency entry. -/
def catStep (col : String) (acc : List (String × Nat) × Nat) (row : Row) :
    List (String × Nat) × Nat :=
  let v := getVal row col
  if isEmptyCell v then (acc.1, acc.2 + 1)
  else (insertCount acc.1 (jsString v), acc.2)

/-- The categorical statistics branch (`AnalysisPanel.tsx:120-161`):
frequency map in insertion order, empty counting, top-10 by descending
frequency (stable sort), and first-seen-wins mode search. -/
def catStats (data : List Row) (col : String) : CatStats :=
  let fe := data.foldl (catStep col) ([], 0)
  let freqList := fe.1
  let emptyCount := fe.2
  let md := freqList.foldl (fun m p => if p.2 > m.2 then p else m) ("", 0)
  { count := data.length - emptyCount
    emptyCount := emptyCount
    uniqueCount := freqList.length
    mode := md.1
    modeFrequency := md.2
    frequencies :=
      (List.insertionSort (fun a b : String × Nat => b.2 ≤ a.2) freqList).take 10 }

/-- `columnStats` (`AnalysisPanel.tsx:71-163`): `none` models the `null`
sentinel; an unselected column is the empty string (JS falsy check). -/
def columnStats (data : List Row) (col : String) : Option Stats :=
  if data.isEmpty || col == "" then none
  else if isNumericColumn data col then
    if (validValues data col).isEmpty then none
    else some (Stats.numeric (mkNumericStats data col))
  else some (Stats.categorical (catStats data col))

/-- A field of an aggregated chart row: the x-axis key (a string) or an
accumulated numeric sum. -/
inductive ChartCell where
  | s (v : String)
  | n (q : ℚ)
deriving Repr, DecidableEq

/-- An aggregated chart row, as a JS object (association list). -/
abbrev Obj := List (String × ChartCell)

/-- Own-property read on an insertion-ordered JS object. -/
def assocGet {β : Type} (st : List (String × β)) (k : String) : Option β :=
  (st.find? (fun p => p.1 == k)).map Prod.snd

/-- `obj[k] = v`: update the existing key in place, else append. -/
def objSet : Obj → String → ChartCell → Obj
  | [], k, v => [(k, v)]
  | (k0, v0) :: rest, k, v =>
      if k0 == k then (k0, v) :: rest else (k0, v0) :: objSet rest k v

/-- `obj[k] += q` on a numeric field (`ChartViewer.tsx:95`).  The summed
fields are always initialised to `ChartCell.n 0` first, so only the first
branch is reachable in `chartData`; the others are total extensions
mirroring JS coercion (string concatenation) as far as the model allows. -/
def objAddNum (o : Obj) (k : String) (q : ℚ) : Obj :=
  match assocGet o k with
  | some (ChartCell.n q0) => objSet o k (ChartCell.n (q0 + q))
  | some (ChartCell.s v) => objSet o k (ChartCell.s (v ++ jsStringOfRat q))
  | none => o

/-- Apply a function to the value stored at a key (no-op when absent). -/
def assocUpdate {β : Type} :
    List (String × β) → String → (β → β) → List (String × β)
  | [], _, _ => []
  | (k0, v) :: rest, k, f =>
      if k0 == k then (k0, f v) :: rest else (k0, v) :: assocUpdate rest k f

/-- The own property names of `Object.prototype` (including the Annex B
accessor helpers present in browsers).  All of their values are functions
or, for `__proto__`, an object — every one is truthy. -/
def objectProtoKeys : List String :=
  ["constructor", "hasOwnProperty", "isPrototypeOf", "propertyIsEnumerable",
   "toLocaleString", "toString", "valueOf", "__proto__",
   "__defineGetter__", "__defineSetter__", "__lookupGetter__",
   "__lookupSetter__"]

/-- Whether a string names an inherited `Object.prototype` member. -/
def isProtoKey (k : String) : Bool := objectProtoKeys.contains k

/-- The grouping loop shared by the bar/line and pie branches
(`ChartViewer.tsx:80-97` and `109-121`): walk the rows; when
`groupedData[k]` is falsy — no own key and no truthy inherited
`Object.prototype` member — insert `init k`; then run the summing step,
which updates the own entry when one exists.  For a prototype-colliding
key no own entry ever exists: initialisation is skipped (the inherited
member is truthy) and the `+=` writes go to that inherited member,
leaving the own-key map — and hence `Object.values` — without the group. -/
def groupFold {β : Type} (keyOf : Row → String) (init : String → β)
    (add : β → Row → β) (data : List Row) : List (String × β) :=
  data.foldl
    (fun st r =>
      let k := keyOf r
      let st1 := if (assocGet st k).isSome || isProtoKey k then st
                 else st ++ [(k, init k)]
      assocUpdate st1 k (fun b => add b r))
    []

/-- ECMAScript own-property key order of a plain object: array-index keys
ascending, then the remaining string keys in insertion order. -/
def objectValuesKeys (ks : List String) : List String :=
  List.insertionSort (fun a b : String => keyNat a ≤ keyNat b)
      (ks.filter (fun k => isArrayIndex k))
    ++ ks.filter (fun k => !(isArrayIndex k))

/-- `Object.values(groupedData)` (`ChartViewer.tsx:99`, `123`). -/
def objectValues {β : Type} (st : List (String × β)) : List β :=
  (objectValuesKeys (st.map Prod.fst)).filterMap (fun k => assocGet st k)

/-- JS falsiness of a cell value (`undefined`, `null`, `''`, `0`). -/
def jsFalsy : Option Value → Bool
  | none => true
  | some Value.vnull => true
  | some (Value.str v) => v == ""
  | some (Value.num q) => q == 0

/-- `String(item[x] || 'undefined')` (`ChartViewer.tsx:81`, `110`). -/
def jsKeyOf (v : Option Value) : String :=
  if jsFalsy v then "undefined" else jsString v

/-- The grouping key of a row for x-axis field `x`. -/
def rowKey (x : String) (r : Row) : String := jsKeyOf (getVal r x)

/-- `Number(item[f]) || 0` (`ChartViewer.tsx:94`, `120`): failed parses
and zero both coerce to 0. -/
def coerceNum (r : Row) (f : String) : ℚ := (jsNumber (getVal r f)).getD 0

/-- `{ [xAxisField]: xValue }` then each y-field initialised to 0
(`ChartViewer.tsx:84-89`). -/
def barInit (x : String) (ys : List String) (k : String) : Obj :=
  ys.foldl (fun o f => objSet o f (ChartCell.n 0)) [(x, ChartCell.s k)]

/-- Accumulate one row into a group object (`ChartViewer.tsx:93-96`). -/
def barAdd (ys : List String) (o : Obj) (r : Row) : Obj :=
  ys.foldl (fun o f => objAddNum o f (coerceNum r f)) o

/-- The bar/line aggregation (`ChartViewer.tsx:77-99`). -/
def barLineData (data : List Row) (x : String) (ys : List String) : List Obj :=
  objectValues (groupFold (rowKey x) (barInit x ys) (barAdd ys) data)

/-- The pie aggregation (`ChartViewer.tsx:103-123`): `{ name, value }`
objects keyed by the same grouping, summing only the first y-field. -/
def pieData (data : List Row) (x : String) (ys : List String) :
    List (String × ℚ) :=
  objectValues
    (groupFold (rowKey x) (fun k => (k, (0 : ℚ)))
      (fun p r => (p.1, p.2 + coerceNum r (ys.headD ""))) data)

/-- The chart kind. -/
inductive ChartType where
  | bar
  | line
  | pie
deriving Repr, DecidableEq

/-- One aggregated output row: a bar/line object or a pie slice. -/
inductive ChartRow where
  | obj (o : Obj)
  | slice (name : String) (value : ℚ)
deriving Repr, DecidableEq

/-- `chartData` (`ChartViewer.tsx:71-127`): empty on an empty dataset,
unset x-field or empty y-field list, else the branch for the chart kind. -/
def chartData (ct : ChartType) (data : List Row) (x : String)
    (ys : List String) : List ChartRow :=
  if data.isEmpty || x == "" || ys.isEmpty then []
  else
    match ct with
    | ChartType.bar => (barLineData data x ys).map ChartRow.obj
    | ChartType.line => (barLineData data x ys).map ChartRow.obj
    | ChartType.pie => (pieData data x ys).map (fun p => ChartRow.slice p.1 p.2)

/-- Read a named field of an output row (pie slices have no named fields). -/
def rowField : ChartRow → String → Option ChartCell
  | ChartRow.obj o, f => assocGet o f
  | ChartRow.slice _ _, _ => none

/-- First occurrence of each element, in first-seen order. -/
def firstSeen (ks : List String) : List String :=
  ks.foldl (fun acc k => if k ∈ acc then acc else acc ++ [k]) []

/-- The rows of a dataset grouped under key `k` for x-axis field `x`. -/
def groupRows (data : List Row) (x k : String) : List Row :=
  data.filter (fun r => rowKey x r == k)

/-- The aggregated sum of y-field `f` over the group of key `k`: every row
of the group contributes one term, failed parses contributing 0. -/
def ySum (data : List Row) (x k f : String) : ℚ :=
  ((groupRows data x k).map (fun r => coerceNum r f)).sum

/-! Concrete datasets used by witnesses and counterexamples (the spec's
scenarios A/B/C/E plus the inputs exhibiting the corrected behaviours). -/

/-- Scenario A/B/C dataset: `[{a:1,b:"x"},{a:2,b:"y"},{a:3,b:"x"}]`. -/
def dScen : List Row :=
  [[("a", Value.num 1), ("b", Value.str "x")],
   [("a", Value.num 2), ("b", Value.str "y")],
   [("a", Value.num 3), ("b", Value.str "x")]]

/-- Scenario E dataset: one column with values `5`, `"abc"`, `7`. -/
def dMixed : List Row :=
  [[("v", Value.num 5)], [("v", Value.str "abc")], [("v", Value.num 7)]]

/-- Dataset with a present but falsy (zero) x-value. -/
def dZero : List Row := [[("b", Value.num 0), ("a", Value.num 1)]]

/-- Dataset whose x-value names an inherited `Object.prototype` member. -/
def dProto : List Row := [[("b", Value.str "toString"), ("a", Value.num 5)]]

/-- Dataset whose column `c` is entirely empty (null or blank). -/
def dEmpties : List Row := [[("c", Value.vnull)], [("c", Value.str "")]]

end Excel

namespace Excel

/-! Helper lemmas about sorted lists, folds and extraction of the
statistics record. -/

theorem getD_mem_of_lt {α : Type} {l : List α} {i : ℕ} (d : α)
    (h : i < l.length) : l.getD i d ∈ l := by
  rw [List.getD_eq_get? , List.get?_eq_get h]
  exact List.get_mem l _ _

theorem getD_sorted_mono {l : List ℚ} (h : List.Sorted (fun a b : ℚ => a ≤ b) l)
    {i j : ℕ} (hij : i ≤ j) (hj : j < l.length) : l.getD i 0 ≤ l.getD j 0 := by
  rcases eq_or_lt_of_le hij with rfl | hlt
  · exact le_refl _
  · have hi : i < l.length := lt_trans hlt hj
    rw [List.getD_eq_get?, List.getD_eq_get?, List.get?_eq_get hi, List.get?_eq_get hj]
    exact List.pairwise_iff_get.mp h ⟨i, hi⟩ ⟨j, hj⟩ hlt

theorem foldl_min_le_init (l : List ℚ) (a : ℚ) : l.foldl min a ≤ a := by
  induction l generalizing a with
  | nil => exact le_refl a
  | cons v rest ih =>
      exact le_trans (ih (min a v)) (min_le_left a v)

theorem foldl_min_le_mem (l : List ℚ) : ∀ (a : ℚ) {x : ℚ}, x ∈ l →
    l.foldl min a ≤ x := by
  induction l with
  | nil => intro a x hx; cases hx
  | cons v rest ih =>
      intro a x hx
      rcases List.mem_cons.mp hx with rfl | hx'
      · exact le_trans (foldl_min_le_init rest (min a x)) (min_le_right a x)
      · exact ih (min a v) hx'

theorem foldl_min_mem (l : List ℚ) (a : ℚ) :
    l.foldl min a = a ∨ l.foldl min a ∈ l := by
  induction l generalizing a with
  | nil => exact Or.inl rfl
  | cons v rest ih =>
      rcases ih (min a v) with h | h
      · rw [List.foldl_cons, h]
        rcases min_choice a v with h' | h'
        · exact Or.inl h'
        · exact Or.inr (by rw [h']; exact List.mem_cons_self v rest)
      · exact Or.inr (List.mem_cons_of_mem v h)

theorem listMin_le {l : List ℚ} {x : ℚ} (hx : x ∈ l) : listMin l ≤ x := by
  cases l with
  | nil => cases hx
  | cons v rest =>
      rcases List.mem_cons.mp hx with rfl | hx'
      · exact foldl_min_le_init rest x
      · exact foldl_min_le_mem rest v hx'

theorem listMin_mem {l : List ℚ} (h : l ≠ []) : listMin l ∈ l := by
  cases l with
  | nil => exact absurd rfl h
  | cons v rest =>
      rcases foldl_min_mem rest v with h' | h'
      · rw [listMin, h']; exact List.mem_cons_self v rest
      · exact List.mem_cons_of_mem v h'

theorem foldl_max_init_le (l : List ℚ) (a : ℚ) : a ≤ l.foldl max a := by
  induction l generalizing a with
  | nil => exact le_refl a
  | cons v rest ih =>
      exact le_trans (le_max_left a v) (ih (max a v))

theorem foldl_max_mem_le (l : List ℚ) : ∀ (a : ℚ) {x : ℚ}, x ∈ l →
    x ≤ l.foldl max a := by
  induction l with
  | nil => intro a x hx; cases hx
  | cons v rest ih =>
      intro a x hx
      rcases List.mem_cons.mp hx with rfl | hx'
      · exact le_trans (le_max_right a x) (foldl_max_init_le rest (max a x))
      · exact ih (max a v) hx'

theorem foldl_max_mem (l : List ℚ) (a : ℚ) :
    l.foldl max a = a ∨ l.foldl max a ∈ l := by
  induction l generalizing a with
  | nil => exact Or.inl rfl
  | cons v rest ih =>
      rcases ih (max a v) with h | h
      · rw [List.foldl_cons, h]
        rcases max_choice a v with h' | h'
        · exact Or.inl h'
        · exact Or.inr (by rw [h']; exact List.mem_cons_self v rest)
      · exact Or.inr (List.mem_cons_of_mem v h)

theorem le_listMax {l : List ℚ} {x : ℚ} (hx : x ∈ l) : x ≤ listMax l := by
  cases l with
  | nil => cases hx
  | cons v rest =>
      rcases List.mem_cons.mp hx with rfl | hx'
      · exact foldl_max_init_le rest x
      · exact foldl_max_mem_le rest v hx'

theorem listMax_mem {l : List ℚ} (h : l ≠ []) : listMax l ∈ l := by
  cases l with
  | nil => exact absurd rfl h
  | cons v rest =>
      rcases foldl_max_mem rest v with h' | h'
      · rw [listMax, h']; exact List.mem_cons_self v rest
      · exact List.mem_cons_of_mem v h'

theorem mul_length_le_sum {l : List ℚ} {a : ℚ} (h : ∀ x ∈ l, a ≤ x) :
    (l.length : ℚ) * a ≤ l.sum := by
  induction l with
  | nil => simp
  | cons v rest ih =>
      have hv : a ≤ v := h v (List.mem_cons_self v rest)
      have hrest : (rest.length : ℚ) * a ≤ rest.sum :=
        ih (fun x hx => h x (List.mem_cons_of_mem v hx))
      rw [List.sum_cons, List.length_cons]
      push_cast
      linarith

theorem sum_le_mul_length {l : List ℚ} {a : ℚ} (h : ∀ x ∈ l, x ≤ a) :
    l.sum ≤ (l.length : ℚ) * a := by
  induction l with
  | nil => simp
  | cons v rest ih =>
      have hv : v ≤ a := h v (List.mem_cons_self v rest)
      have hrest : rest.sum ≤ (rest.length : ℚ) * a :=
        ih (fun x hx => h x (List.mem_cons_of_mem v hx))
      rw [List.sum_cons, List.length_cons]
      push_cast
      linarith

theorem sum_nonneg_eq_zero_iff {l : List ℚ} (h : ∀ x ∈ l, 0 ≤ x) :
    l.sum = 0 ↔ ∀ x ∈ l, x = 0 := by
  induction l with
  | nil => simp
  | cons v rest ih =>
      have hv : 0 ≤ v := h v (List.mem_cons_self v rest)
      have hrest : ∀ x ∈ rest, 0 ≤ x := fun x hx => h x (List.mem_cons_of_mem v hx)
      have hrs : 0 ≤ rest.sum := List.sum_nonneg hrest
      rw [List.sum_cons]
      constructor
      · intro h0
        have hv0 : v = 0 := le_antisymm (by linarith) hv
        have hr0 : rest.sum = 0 := by linarith
        intro x hx
        rcases List.mem_cons.mp hx with rfl | hx'
        · exact hv0
        · exact ((ih hrest).mp hr0) x hx'
      · intro hall
        have hv0 : v = 0 := hall v (List.mem_cons_self v rest)
        have hr0 : rest.sum = 0 :=
          (ih hrest).mpr (fun x hx => hall x (List.mem_cons_of_mem v hx))
        rw [hv0, hr0, add_zero]

theorem sum_const_list {l : List ℚ} {c : ℚ} (h : ∀ x ∈ l, x = c) :
    l.sum = (l.length : ℚ) * c := by
  induction l with
  | nil => simp
  | cons v rest ih =>
      have hv : v = c := h v (List.mem_cons_self v rest)
      have hrest : rest.sum = (rest.length : ℚ) * c :=
        ih (fun x hx => h x (List.mem_cons_of_mem v hx))
      rw [List.sum_cons, List.length_cons, hv, hrest]
      push_cast
      ring

theorem columnStats_numeric_elim {data : List Row} {col : String}
    {s : NumericStats} (h : columnStats data col = some (Stats.numeric s)) :
    validValues data col ≠ [] ∧ s = mkNumericStats data col := by
  unfold columnStats at h
  split at h
  · exact absurd h (by simp)
  · split at h
    · split at h
      · exact absurd h (by simp)
      · refine ⟨?_, ?_⟩
        · intro hnil
          rename_i hne
          exact hne (by simp [hnil])
        · have := Option.some.inj h
          exact (Stats.numeric.inj this).symm
    · exact absurd (Option.some.inj h) (by intro hh; cases hh)

end Excel

namespace Excel

theorem sampleOk_iff (v : Option Value) :
    sampleOk v = true ↔ (isEmptyCell v = true ∨ (jsNumber v).isSome = true) := by
  cases v with
  | none => simp [sampleOk, isEmptyCell, jsTypeofNumber, jsNumber]
  | some u => cases u <;> simp [sampleOk, isEmptyCell, jsTypeofNumber, jsNumber]

/-- C2 counterexample: on the empty dataset every sampled value vacuously
passes the empty-or-parses test, yet the classifier returns categorical
(`false`), so the stated "for every dataset" biconditional fails. -/
theorem classifier_empty_dataset_cex :
    isNumericColumn ([] : List Row) "a" = false ∧
    ∀ r ∈ (List.take 5 ([] : List Row)),
      isEmptyCell (getVal r "a") = true ∨ (jsNumber (getVal r "a")).isSome = true := by
  refine ⟨rfl, ?_⟩
  intro r hr
  simp at hr

/-- C2 (amended to non-empty datasets): for every non-empty dataset and
column, the classifier returns numeric iff every value of the column in
the first `min(5, rowCount)` rows is empty (absent, null, blank) or
parses as a number; one non-empty non-parsing sample value forces
categorical. -/
theorem classifier_numeric_iff (data : List Row) (col : String)
    (hd : data ≠ []) :
    isNumericColumn data col = true ↔
      ∀ r ∈ data.take 5,
        isEmptyCell (getVal r col) = true ∨ (jsNumber (getVal r col)).isSome = true := by
  unfold isNumericColumn
  have h0 : data.isEmpty = false := List.isEmpty_eq_false.mpr hd
  rw [h0]
  simp only [Bool.false_eq_true, if_false, List.all_eq_true]
  constructor
  · intro h r hr
    exact (sampleOk_iff _).mp (h r hr)
  · intro h r hr
    exact (sampleOk_iff _).mpr (h r hr)

/-- Witness for the amended C2, at the Scenario E dataset. -/
theorem classifier_numeric_iff_witness :
    dMixed ≠ [] ∧
      (isNumericColumn dMixed "v" = true ↔
        ∀ r ∈ dMixed.take 5,
          isEmptyCell (getVal r "v") = true ∨ (jsNumber (getVal r "v")).isSome = true) :=
  ⟨by decide, classifier_numeric_iff dMixed "v" (by decide)⟩

/-- C7: `columnStats` returns the `null` sentinel exactly when the dataset
is empty, no column is selected, or — on the numeric path — zero values
parse successfully; and `chartData` returns `[]` whenever the dataset is
empty, the x-field is unset, or the y-field list is empty.  Both are total
Lean functions, so neither can throw. -/
theorem sentinel_on_empty_inputs (data : List Row) (col : String)
    (ct : ChartType) (x : String) (ys : List String) :
    (columnStats data col = none ↔
      data = [] ∨ col = "" ∨
        (isNumericColumn data col = true ∧ validValues data col = [])) ∧
    ((data = [] ∨ x = "" ∨ ys = []) → chartData ct data x ys = []) := by
  constructor
  · unfold columnStats
    by_cases hd : data = []
    · simp [hd]
    · have hd' : data.isEmpty = false := List.isEmpty_eq_false.mpr hd
      by_cases hc : col = ""
      · simp [hd', hc]
      · have hc' : (col == "") = false := by simp [hc]
        by_cases hnum : isNumericColumn data col = true
        · by_cases hvv : validValues data col = []
          · simp [hd', hc', hnum, hvv, hd, hc]
          · have hvv' : (validValues data col).isEmpty = false :=
              List.isEmpty_eq_false.mpr hvv
            simp [hd', hc', hnum, hvv', hd, hc, hvv]
        · have hnum' : isNumericColumn data col = false :=
            Bool.eq_false_iff.mpr hnum
          simp [hd', hc', hnum', hd, hc, hnum]
  · intro h
    rcases h with rfl | rfl | rfl
    · simp [chartData]
    · simp [chartData]
    · simp [chartData]

/-- Witness for C7 at the empty dataset (Scenario D). -/
theorem sentinel_on_empty_inputs_witness :
    (([] : List Row) = [] ∨ "b" = "" ∨ (["a"] : List String) = []) ∧
      chartData ChartType.bar ([] : List Row) "b" ["a"] = [] :=
  ⟨Or.inl rfl,
    (sentinel_on_empty_inputs [] "a" ChartType.bar "b" ["a"]).2 (Or.inl rfl)⟩

theorem catStats_fold_all_empty (data : List Row) (col : String)
    (h : ∀ r ∈ data, isEmptyCell (getVal r col) = true) :
    ∀ (m : List (String × Nat)) (e : Nat),
      data.foldl (catStep col) (m, e) = (m, e + data.length) := by
  induction data with
  | nil => intro m e; simp
  | cons r rest ih =>
      intro m e
      have hr : isEmptyCell (getVal r col) = true := h r (List.mem_cons_self r rest)
      have hrest := ih (fun q hq => h q (List.mem_cons_of_mem r hq))
      rw [List.foldl_cons]
      have hstep : catStep col (m, e) r = (m, e + 1) := by
        simp [catStep, hr]
      rw [hstep, hrest m (e + 1), List.length_cons]
      have : e + 1 + rest.length = e + (rest.length + 1) := by omega
      rw [this]

/-- C9: whenever the categorical branch runs (non-empty dataset, selected
column classified categorical) `columnStats` yields a result, never the
sentinel; and the branch computation on a column whose every value is
empty yields count 0, emptyCount = rowCount, uniqueCount 0, mode `""`
with frequency 0, and no frequency entries. -/
theorem categorical_branch_total (data : List Row) (col : String) :
    (data ≠ [] → col ≠ "" → isNumericColumn data col = false →
      columnStats data col = some (Stats.categorical (catStats data col))) ∧
    ((∀ r ∈ data, isEmptyCell (getVal r col) = true) →
      catStats data col =
        { count := 0, emptyCount := data.length, uniqueCount := 0,
          mode := "", modeFrequency := 0, frequencies := [] }) := by
  constructor
  · intro hd hc hnum
    unfold columnStats
    have hd' : data.isEmpty = false := List.isEmpty_eq_false.mpr hd
    have hc' : (col == "") = false := by simp [hc]
    rw [hd', hc', hnum]
    simp
  · intro h
    unfold catStats
    rw [catStats_fold_all_empty data col h [] 0]
    simp

/-- Witness for C9: Scenario B's categorical column, and the all-empty
column dataset for the degenerate values. -/
theorem categorical_branch_total_witness :
    columnStats dScen "b" = some (Stats.categorical (catStats dScen "b")) ∧
      catStats dEmpties "c" =
        { count := 0, emptyCount := dEmpties.length, uniqueCount := 0,
          mode := "", modeFrequency := 0, frequencies := [] } :=
  ⟨(categorical_branch_total dScen "b").1 (by decide) (by decide) (by decide),
    (categorical_branch_total dEmpties "c").2 (by decide)⟩

/-- C10: on a non-empty valid-value list of length `n`, every index the
statistics computation reads from the sorted list — `n / 2` (odd median),
`n / 2 − 1` and `n / 2` (even median), `n / 4` (q1) and `3n / 4` (q3) —
is strictly below the sorted list's length. -/
theorem sorted_index_bounds (data : List Row) (col : String)
    (h : validValues data col ≠ []) :
    (sortedVals data col).length = (validValues data col).length ∧
    ((validValues data col).length % 2 = 1 →
      (validValues data col).length / 2 < (sortedVals data col).length) ∧
    ((validValues data col).length % 2 = 0 →
      (validValues data col).length / 2 - 1 < (sortedVals data col).length ∧
      (validValues data col).length / 2 < (sortedVals data col).length) ∧
    (validValues data col).length / 4 < (sortedVals data col).length ∧
    3 * (validValues data col).length / 4 < (sortedVals data col).length := by
  have hlen : (sortedVals data col).length = (validValues data col).length :=
    List.length_insertionSort _ _
  have hpos : 0 < (validValues data col).length := List.length_pos.mpr h
  refine ⟨hlen, fun hodd => ?_, fun heven => ⟨?_, ?_⟩, ?_, ?_⟩ <;>
    rw [hlen] <;> omega

/-- Witness for C10 at Scenario A's numeric column. -/
theorem sorted_index_bounds_witness :
    validValues dScen "a" ≠ [] ∧
      ((sortedVals dScen "a").length = (validValues dScen "a").length ∧
      ((validValues dScen "a").length % 2 = 1 →
        (validValues dScen "a").length / 2 < (sortedVals dScen "a").length) ∧
      ((validValues dScen "a").length % 2 = 0 →
        (validValues dScen "a").length / 2 - 1 < (sortedVals dScen "a").length ∧
        (validValues dScen "a").length / 2 < (sortedVals dScen "a").length) ∧
      (validValues dScen "a").length / 4 < (sortedVals dScen "a").length ∧
      3 * (validValues dScen "a").length / 4 < (sortedVals dScen "a").length) :=
  ⟨by decide, sorted_index_bounds dScen "a" (by decide)⟩

end Excel

namespace Excel

theorem sorted_stats_chain {vals sorted : List ℚ}
    (hsort : List.Sorted (fun a b : ℚ => a ≤ b) sorted)
    (hperm : sorted.Perm vals) (hv : vals ≠ []) :
    listMin vals ≤ sorted.getD (vals.length / 4) 0 ∧
    sorted.getD (vals.length / 4) 0 ≤
      (if vals.length % 2 = 0 then
        (sorted.getD (vals.length / 2 - 1) 0 + sorted.getD (vals.length / 2) 0) / 2
       else sorted.getD (vals.length / 2) 0) ∧
    (if vals.length % 2 = 0 then
        (sorted.getD (vals.length / 2 - 1) 0 + sorted.getD (vals.length / 2) 0) / 2
     else sorted.getD (vals.length / 2) 0) ≤ sorted.getD (3 * vals.length / 4) 0 ∧
    sorted.getD (3 * vals.length / 4) 0 ≤ listMax vals ∧
    listMin vals ≤ vals.sum / (vals.length : ℚ) ∧
    vals.sum / (vals.length : ℚ) ≤ listMax vals := by
  have hlen : sorted.length = vals.length := hperm.length_eq
  have hpos : 0 < vals.length := List.length_pos.mpr hv
  have hmemq1 : sorted.getD (vals.length / 4) 0 ∈ vals :=
    hperm.mem_iff.mp (getD_mem_of_lt 0 (by omega))
  have hmemq3 : sorted.getD (3 * vals.length / 4) 0 ∈ vals :=
    hperm.mem_iff.mp (getD_mem_of_lt 0 (by omega))
  have hcast : (0 : ℚ) < (vals.length : ℚ) := by exact_mod_cast hpos
  refine ⟨listMin_le hmemq1, ?_, ?_, le_listMax hmemq3, ?_, ?_⟩
  · by_cases hpar : vals.length % 2 = 0
    · rw [if_pos hpar]
      have h1 : sorted.getD (vals.length / 4) 0 ≤ sorted.getD (vals.length / 2 - 1) 0 :=
        getD_sorted_mono hsort (by omega) (by omega)
      have h2 : sorted.getD (vals.length / 2 - 1) 0 ≤ sorted.getD (vals.length / 2) 0 :=
        getD_sorted_mono hsort (by omega) (by omega)
      linarith
    · rw [if_neg hpar]
      exact getD_sorted_mono hsort (by omega) (by omega)
  · by_cases hpar : vals.length % 2 = 0
    · rw [if_pos hpar]
      have h1 : sorted.getD (vals.length / 2 - 1) 0 ≤ sorted.getD (vals.length / 2) 0 :=
        getD_sorted_mono hsort (by omega) (by omega)
      have h2 : sorted.getD (vals.length / 2) 0 ≤ sorted.getD (3 * vals.length / 4) 0 :=
        getD_sorted_mono hsort (by omega) (by omega)
      linarith
    · rw [if_neg hpar]
      exact getD_sorted_mono hsort (by omega) (by omega)
  · rw [le_div_iff₀ hcast]
    have hbound : (vals.length : ℚ) * listMin vals ≤ vals.sum :=
      mul_length_le_sum (fun x hx => listMin_le hx)
    linarith
  · rw [div_le_iff₀ hcast]
    have hbound : vals.sum ≤ (vals.length : ℚ) * listMax vals :=
      sum_le_mul_length (fun x hx => le_listMax hx)
    linarith

/-- C3: for every dataset and numeric column with at least one parseable
value, the statistics satisfy `min ≤ q1 ≤ median ≤ q3 ≤ max` and
`min ≤ mean ≤ max`. -/
theorem numeric_stats_ordered (data : List Row) (col : String)
    (s : NumericStats) (h : columnStats data col = some (Stats.numeric s)) :
    s.min ≤ s.q1 ∧ s.q1 ≤ s.median ∧ s.median ≤ s.q3 ∧ s.q3 ≤ s.max ∧
    s.min ≤ s.mean ∧ s.mean ≤ s.max := by
  obtain ⟨hv, hs⟩ := columnStats_numeric_elim h
  subst hs
  have hsort : List.Sorted (fun a b : ℚ => a ≤ b) (sortedVals data col) :=
    List.sorted_insertionSort _ _
  have hperm : (sortedVals data col).Perm (validValues data col) :=
    List.perm_insertionSort _ _
  have core := sorted_stats_chain hsort hperm hv
  obtain ⟨c1, c2, c3, c4, c5, c6⟩ := core
  exact ⟨c1, c2, c3, c4, c5, c6⟩

/-- Witness for C3 at Scenario A's numeric column. -/
theorem numeric_stats_ordered_witness :
    columnStats dScen "a" = some (Stats.numeric (mkNumericStats dScen "a")) ∧
      ((mkNumericStats dScen "a").min ≤ (mkNumericStats dScen "a").q1 ∧
       (mkNumericStats dScen "a").q1 ≤ (mkNumericStats dScen "a").median ∧
       (mkNumericStats dScen "a").median ≤ (mkNumericStats dScen "a").q3 ∧
       (mkNumericStats dScen "a").q3 ≤ (mkNumericStats dScen "a").max ∧
       (mkNumericStats dScen "a").min ≤ (mkNumericStats dScen "a").mean ∧
       (mkNumericStats dScen "a").mean ≤ (mkNumericStats dScen "a").max) :=
  ⟨rfl, numeric_stats_ordered dScen "a" (mkNumericStats dScen "a") rfl⟩

theorem floor_quarter_eq (n : ℕ) : Nat.floor ((n : ℚ) * 0.25) = n / 4 := by
  rw [show (0.25 : ℚ) = 1 / 4 by norm_num]
  rw [mul_one_div, show (4 : ℚ) = ((4 : ℕ) : ℚ) by norm_num,
    Nat.floor_div_nat, Nat.floor_natCast]

theorem floor_three_quarters_eq (n : ℕ) :
    Nat.floor ((n : ℚ) * 0.75) = 3 * n / 4 := by
  rw [show (0.75 : ℚ) = 3 / 4 by norm_num]
  have hx : (n : ℚ) * (3 / 4) = ((3 * n : ℕ) : ℚ) / ((4 : ℕ) : ℚ) := by
    push_cast
    ring
  rw [hx, Nat.floor_div_nat, Nat.floor_natCast]

theorem floor_half_eq (n : ℕ) : Nat.floor ((n : ℚ) / 2) = n / 2 := by
  rw [show (2 : ℚ) = ((2 : ℕ) : ℚ) by norm_num, Nat.floor_div_nat,
    Nat.floor_natCast]

/-- C5: the median is the average of the two central elements when the
valid count is even and the element at index `⌊n/2⌋` when odd, and
`q1`/`q3` are the elements at the floor-based positions `⌊n·0.25⌋` and
`⌊n·0.75⌋` of the ascending-sorted valid-value sequence. -/
theorem stats_positional_quartiles (data : List Row) (col : String)
    (s : NumericStats) (h : columnStats data col = some (Stats.numeric s)) :
    List.Sorted (fun a b : ℚ => a ≤ b) (sortedVals data col) ∧
    (sortedVals data col).Perm (validValues data col) ∧
    ((validValues data col).length % 2 = 1 →
      s.median = (sortedVals data col).getD
        (Nat.floor (((validValues data col).length : ℚ) / 2)) 0) ∧
    ((validValues data col).length % 2 = 0 →
      s.median = ((sortedVals data col).getD ((validValues data col).length / 2 - 1) 0
        + (sortedVals data col).getD ((validValues data col).length / 2) 0) / 2) ∧
    s.q1 = (sortedVals data col).getD
      (Nat.floor (((validValues data col).length : ℚ) * 0.25)) 0 ∧
    s.q3 = (sortedVals data col).getD
      (Nat.floor (((validValues data col).length : ℚ) * 0.75)) 0 := by
  obtain ⟨hv, hs⟩ := columnStats_numeric_elim h
  subst hs
  have hmed : (mkNumericStats data col).median =
      if (validValues data col).length % 2 = 0 then
        ((sortedVals data col).getD ((validValues data col).length / 2 - 1) 0
          + (sortedVals data col).getD ((validValues data col).length / 2) 0) / 2
      else (sortedVals data col).getD ((validValues data col).length / 2) 0 := rfl
  refine ⟨List.sorted_insertionSort _ _, List.perm_insertionSort _ _, ?_, ?_, ?_, ?_⟩
  · intro hodd
    rw [hmed, if_neg (by omega), floor_half_eq]
  · intro heven
    rw [hmed, if_pos heven]
  · show (sortedVals data col).getD ((validValues data col).length / 4) 0 = _
    rw [floor_quarter_eq]
  · show (sortedVals data col).getD (3 * (validValues data col).length / 4) 0 = _
    rw [floor_three_quarters_eq]

/-- Witness for C5 at Scenario A's numeric column. -/
theorem stats_positional_quartiles_witness :
    columnStats dScen "a" = some (Stats.numeric (mkNumericStats dScen "a")) ∧
      (List.Sorted (fun a b : ℚ => a ≤ b) (sortedVals dScen "a") ∧
      (sortedVals dScen "a").Perm (validValues dScen "a") ∧
      ((validValues dScen "a").length % 2 = 1 →
        (mkNumericStats dScen "a").median = (sortedVals dScen "a").getD
          (Nat.floor (((validValues dScen "a").length : ℚ) / 2)) 0) ∧
      ((validValues dScen "a").length % 2 = 0 →
        (mkNumericStats dScen "a").median =
          ((sortedVals dScen "a").getD ((validValues dScen "a").length / 2 - 1) 0
          + (sortedVals dScen "a").getD ((validValues dScen "a").length / 2) 0) / 2) ∧
      (mkNumericStats dScen "a").q1 = (sortedVals dScen "a").getD
        (Nat.floor (((validValues dScen "a").length : ℚ) * 0.25)) 0 ∧
      (mkNumericStats dScen "a").q3 = (sortedVals dScen "a").getD
        (Nat.floor (((validValues dScen "a").length : ℚ) * 0.75)) 0) :=
  ⟨rfl, stats_positional_quartiles dScen "a" (mkNumericStats dScen "a") rfl⟩

/-- C6: the standard deviation `√variance` (population variance, divisor
`count`) is nonnegative, and it is zero exactly when all valid values of
the column are equal. -/
theorem stddev_zero_iff (data : List Row) (col : String) (s : NumericStats)
    (h : columnStats data col = some (Stats.numeric s)) :
    0 ≤ Real.sqrt (s.variance : ℝ) ∧
    (Real.sqrt (s.variance : ℝ) = 0 ↔
      ∀ a ∈ validValues data col, ∀ b ∈ validValues data col, a = b) := by
  obtain ⟨hv, hs⟩ := columnStats_numeric_elim h
  subst hs
  have hvar : (mkNumericStats data col).variance =
      ((validValues data col).map
        (fun v => (v - (validValues data col).sum / ((validValues data col).length : ℚ)) ^ 2)).sum
        / ((validValues data col).length : ℚ) := rfl
  have hterms : ∀ x ∈ (validValues data col).map
      (fun v => (v - (validValues data col).sum / ((validValues data col).length : ℚ)) ^ 2),
      0 ≤ x := by
    intro x hx
    obtain ⟨v, hvmem, rfl⟩ := List.mem_map.mp hx
    positivity
  have hpos : 0 < (validValues data col).length := List.length_pos.mpr hv
  have hcast : (0 : ℚ) < ((validValues data col).length : ℚ) := by exact_mod_cast hpos
  have hn0 : ((validValues data col).length : ℚ) ≠ 0 := ne_of_gt hcast
  have hvar_nonneg : 0 ≤ (mkNumericStats data col).variance := by
    rw [hvar]
    exact div_nonneg (List.sum_nonneg hterms) (le_of_lt hcast)
  refine ⟨Real.sqrt_nonneg _, ?_⟩
  rw [Real.sqrt_eq_zero (by exact_mod_cast hvar_nonneg), Rat.cast_eq_zero, hvar,
    div_eq_zero_iff]
  constructor
  · intro hd
    rcases hd with hsum0 | hbad
    · have hall := (sum_nonneg_eq_zero_iff hterms).mp hsum0
      intro a ha b hb
      have hA : (a - (validValues data col).sum / ((validValues data col).length : ℚ)) ^ 2 = 0 :=
        hall _ (List.mem_map.mpr ⟨a, ha, rfl⟩)
      have hB : (b - (validValues data col).sum / ((validValues data col).length : ℚ)) ^ 2 = 0 :=
        hall _ (List.mem_map.mpr ⟨b, hb, rfl⟩)
      have ha' : a = (validValues data col).sum / ((validValues data col).length : ℚ) :=
        sub_eq_zero.mp ((pow_eq_zero_iff (two_ne_zero)).mp hA)
      have hb' : b = (validValues data col).sum / ((validValues data col).length : ℚ) :=
        sub_eq_zero.mp ((pow_eq_zero_iff (two_ne_zero)).mp hB)
      rw [ha', hb']
    · exact absurd hbad hn0
  · intro hall
    left
    obtain ⟨v0, hv0⟩ := List.exists_mem_of_ne_nil _ hv
    have hconst : ∀ x ∈ validValues data col, x = v0 := fun x hx => hall x hx v0 hv0
    have hsum : (validValues data col).sum = ((validValues data col).length : ℚ) * v0 :=
      sum_const_list hconst
    have hmean_eq : (validValues data col).sum / ((validValues data col).length : ℚ) = v0 := by
      rw [hsum, mul_div_cancel_left₀ _ hn0]
    apply List.sum_eq_zero
    intro x hx
    obtain ⟨v, hvm, rfl⟩ := List.mem_map.mp hx
    rw [hconst v hvm, hmean_eq]
    simp

/-- Witness for C6 at Scenario A's numeric column. -/
theorem stddev_zero_iff_witness :
    columnStats dScen "a" = some (Stats.numeric (mkNumericStats dScen "a")) ∧
      (0 ≤ Real.sqrt ((mkNumericStats dScen "a").variance : ℝ) ∧
      (Real.sqrt ((mkNumericStats dScen "a").variance : ℝ) = 0 ↔
        ∀ a ∈ validValues dScen "a", ∀ b ∈ validValues dScen "a", a = b)) :=
  ⟨rfl, stddev_zero_iff dScen "a" (mkNumericStats dScen "a") rfl⟩

end Excel

namespace Excel

/-! Lemmas on first-seen key lists and insertion-ordered accumulator maps,
leading to a closed form of the grouping loop `groupFold`. -/

theorem mem_foldl_firstSeen (ks : List String) :
    ∀ (acc : List String) (a : String),
      a ∈ ks.foldl (fun acc k => if k ∈ acc then acc else acc ++ [k]) acc ↔
        a ∈ acc ∨ a ∈ ks := by
  induction ks with
  | nil => intro acc a; simp
  | cons k rest ih =>
      intro acc a
      rw [List.foldl_cons]
      by_cases hk : k ∈ acc
      · rw [if_pos hk, ih]
        constructor
        · rintro (h | h)
          · exact Or.inl h
          · exact Or.inr (List.mem_cons_of_mem _ h)
        · rintro (h | h)
          · exact Or.inl h
          · rcases List.mem_cons.mp h with rfl | h2
            · exact Or.inl hk
            · exact Or.inr h2
      · rw [if_neg hk, ih]
        simp only [List.mem_append, List.mem_cons, List.mem_singleton,
          List.not_mem_nil, or_false]
        tauto

theorem mem_firstSeen (ks : List String) (a : String) :
    a ∈ firstSeen ks ↔ a ∈ ks := by
  unfold firstSeen
  rw [mem_foldl_firstSeen]
  simp

theorem nodup_foldl_firstSeen (ks : List String) :
    ∀ acc : List String, acc.Nodup →
      (ks.foldl (fun acc k => if k ∈ acc then acc else acc ++ [k]) acc).Nodup := by
  induction ks with
  | nil => intro acc h; exact h
  | cons k rest ih =>
      intro acc h
      rw [List.foldl_cons]
      by_cases hk : k ∈ acc
      · rw [if_pos hk]; exact ih acc h
      · rw [if_neg hk]
        exact ih _ (by simp [List.nodup_append, hk, h])

theorem firstSeen_nodup (ks : List String) : (firstSeen ks).Nodup :=
  nodup_foldl_firstSeen ks [] List.nodup_nil

theorem firstSeen_append_single (ks : List String) (k : String) :
    firstSeen (ks ++ [k]) =
      if k ∈ firstSeen ks then firstSeen ks else firstSeen ks ++ [k] := by
  unfold firstSeen
  rw [List.foldl_append]
  rfl

theorem assocGet_map_shape {β : Type} (g : String → β) (ks : List String)
    (k0 : String) :
    assocGet (ks.map (fun k => (k, g k))) k0 =
      if k0 ∈ ks then some (g k0) else none := by
  induction ks with
  | nil => simp [assocGet]
  | cons k rest ih =>
      by_cases hk : k = k0
      · subst hk
        simp [assocGet, List.find?_cons]
      · rw [List.map_cons]
        have hskip : assocGet ((k, g k) :: rest.map (fun k => (k, g k))) k0 =
            assocGet (rest.map (fun k => (k, g k))) k0 := by
          unfold assocGet
          rw [List.find?_cons]
          have hb : ((k, g k).1 == k0) = false := by simp [hk]
          rw [hb]
        rw [hskip, ih]
        have hiff : k0 ∈ k :: rest ↔ k0 ∈ rest := by
          rw [List.mem_cons]
          constructor
          · rintro (rfl | h2)
            · exact absurd rfl hk
            · exact h2
          · exact Or.inr
        rw [if_congr hiff rfl rfl]

theorem assocUpdate_map_shape {β : Type} (g : String → β) (f : β → β)
    (ks : List String) (k0 : String) (h : ks.Nodup) :
    assocUpdate (ks.map (fun k => (k, g k))) k0 f =
      ks.map (fun k => (k, if k = k0 then f (g k) else g k)) := by
  induction ks with
  | nil => rfl
  | cons k rest ih =>
      obtain ⟨hk, hr⟩ := List.nodup_cons.mp h
      rw [List.map_cons, List.map_cons]
      by_cases hkk : k = k0
      · rw [show assocUpdate ((k, g k) :: rest.map (fun a => (a, g a))) k0 f =
              (k, f (g k)) :: rest.map (fun a => (a, g a)) from by
            simp only [assocUpdate]
            rw [if_pos (beq_iff_eq.mpr hkk)]]
        rw [if_pos hkk]
        congr 1
        apply List.map_congr_left
        intro a ha
        have hne : a ≠ k0 := by
          intro hh
          apply hk
          rw [hkk, ← hh]
          exact ha
        rw [if_neg hne]
      · rw [show assocUpdate ((k, g k) :: rest.map (fun a => (a, g a))) k0 f =
              (k, g k) :: assocUpdate (rest.map (fun a => (a, g a))) k0 f from by
            simp only [assocUpdate]
            rw [if_neg (by simp [hkk])]]
        rw [ih hr, if_neg hkk]

theorem step_value_eq {β : Type} (keyOf : Row → String) (init : String → β)
    (add : β → Row → β) (pre : List Row) (r : Row) (k : String) :
    ((pre ++ [r]).filter (fun q => keyOf q == k)).foldl add (init k) =
      if k = keyOf r then
        add ((pre.filter (fun q => keyOf q == k)).foldl add (init k)) r
      else (pre.filter (fun q => keyOf q == k)).foldl add (init k) := by
  rw [List.filter_append]
  by_cases hk : k = keyOf r
  · rw [if_pos hk]
    have hb : (keyOf r == k) = true := beq_iff_eq.mpr hk.symm
    have hone : List.filter (fun q => keyOf q == k) [r] = [r] := by
      simp [List.filter, hb]
    rw [hone, List.foldl_append]
    rfl
  · rw [if_neg hk]
    have hb : (keyOf r == k) = false := by
      simp only [beq_eq_false_iff_ne, ne_eq]
      exact fun hh => hk hh.symm
    have hnone : List.filter (fun q => keyOf q == k) [r] = [] := by
      simp [List.filter, hb]
    rw [hnone, List.append_nil]

theorem assocGet_cons_ne {β : Type} (k0 : String) (v0 : β)
    (rest : List (String × β)) (k : String) (hb : (k0 == k) = false) :
    assocGet ((k0, v0) :: rest) k = assocGet rest k := by
  unfold assocGet
  simp only [List.find?_cons, hb]

theorem assocGet_cons_none {β : Type} {k0 : String} {v0 : β}
    {rest : List (String × β)} {k : String}
    (h : assocGet ((k0, v0) :: rest) k = none) :
    (k0 == k) = false ∧ assocGet rest k = none := by
  by_cases hb : (k0 == k) = true
  · exfalso
    unfold assocGet at h
    simp only [List.find?_cons, hb] at h
    simp at h
  · have hb0 : (k0 == k) = false := by
      revert hb
      cases (k0 == k) <;> simp
    refine ⟨hb0, ?_⟩
    rw [← assocGet_cons_ne k0 v0 rest k hb0]
    exact h

theorem assocUpdate_absent {β : Type} (st : List (String × β)) (k : String)
    (f : β → β) (h : assocGet st k = none) : assocUpdate st k f = st := by
  induction st with
  | nil => rfl
  | cons p rest ih =>
      obtain ⟨k0, v0⟩ := p
      obtain ⟨hb, hrest⟩ := assocGet_cons_none h
      simp only [assocUpdate]
      rw [if_neg (by simp [hb])]
      rw [ih hrest]

theorem groupFold_eq {β : Type} (keyOf : Row → String) (init : String → β)
    (add : β → Row → β) (data : List Row) :
    groupFold keyOf init add data =
      (firstSeen ((data.map keyOf).filter (fun k => !(isProtoKey k)))).map
        (fun k => (k, (data.filter (fun r => keyOf r == k)).foldl add (init k))) := by
  induction data using List.reverseRecOn with
  | nil => rfl
  | append_singleton pre r ih =>
      have hGF : groupFold keyOf init add (pre ++ [r]) =
          assocUpdate
            (if (assocGet (groupFold keyOf init add pre) (keyOf r)).isSome
                || isProtoKey (keyOf r)
             then groupFold keyOf init add pre
             else groupFold keyOf init add pre ++ [(keyOf r, init (keyOf r))])
            (keyOf r) (fun b => add b r) := by
        unfold groupFold
        rw [List.foldl_append]
        rfl
      rw [hGF, ih]
      rw [show (pre ++ [r]).map keyOf = pre.map keyOf ++ [keyOf r] by simp]
      rw [List.filter_append]
      by_cases hpk : isProtoKey (keyOf r) = true
      · rw [show List.filter (fun k => !(isProtoKey k)) [keyOf r] = [] by
          simp [hpk]]
        rw [List.append_nil]
        have hnotmem : keyOf r ∉
            firstSeen ((pre.map keyOf).filter (fun k => !(isProtoKey k))) := by
          intro hmem
          have hmem2 := (mem_firstSeen _ _).mp hmem
          rw [List.mem_filter, hpk] at hmem2
          simp at hmem2
        rw [assocGet_map_shape, if_neg hnotmem]
        simp only [Option.isSome_none, Bool.false_or, hpk, if_true]
        rw [assocUpdate_absent _ _ _ (by rw [assocGet_map_shape, if_neg hnotmem])]
        apply List.map_congr_left
        intro k hk
        rw [step_value_eq keyOf init add pre r k]
        have hkne : k ≠ keyOf r := by
          intro hh
          have hk2 := (mem_firstSeen _ _).mp hk
          rw [List.mem_filter, hh, hpk] at hk2
          simp at hk2
        rw [if_neg hkne]
      · have hpk0 : isProtoKey (keyOf r) = false := by
          revert hpk
          cases isProtoKey (keyOf r) <;> simp
        rw [show List.filter (fun k => !(isProtoKey k)) [keyOf r] = [keyOf r] by
          simp [hpk0]]
        rw [firstSeen_append_single]
        rw [assocGet_map_shape]
        by_cases hmem : keyOf r ∈
            firstSeen ((pre.map keyOf).filter (fun k => !(isProtoKey k)))
        · rw [if_pos hmem, if_pos hmem]
          simp only [Option.isSome_some, Bool.true_or, if_true]
          rw [assocUpdate_map_shape _ _ _ _ (firstSeen_nodup _)]
          apply List.map_congr_left
          intro k hkmem
          rw [step_value_eq keyOf init add pre r k]
        · rw [if_neg hmem, if_neg hmem]
          simp only [Option.isSome_none, Bool.false_or, hpk0,
            Bool.false_eq_true, if_false]
          have hk0ks : keyOf r ∉ pre.map keyOf := by
            intro hh
            apply hmem
            rw [mem_firstSeen, List.mem_filter]
            exact ⟨hh, by simp [hpk0]⟩
          have hfilter : pre.filter (fun q => keyOf q == keyOf r) = [] := by
            rw [List.filter_eq_nil_iff]
            intro a ha hba
            apply hk0ks
            have hak : keyOf a = keyOf r := by simpa using hba
            rw [← hak]
            exact List.mem_map_of_mem keyOf ha
          have happend :
              (firstSeen ((pre.map keyOf).filter (fun k => !(isProtoKey k)))).map
                (fun k => (k, (pre.filter (fun q => keyOf q == k)).foldl add (init k)))
                ++ [(keyOf r, init (keyOf r))] =
              (firstSeen ((pre.map keyOf).filter (fun k => !(isProtoKey k)))
                  ++ [keyOf r]).map
                (fun k => (k, (pre.filter (fun q => keyOf q == k)).foldl add (init k))) := by
            rw [List.map_append]
            simp only [List.map_cons, List.map_nil, hfilter, List.foldl_nil]
          rw [happend]
          have hnd2 : (firstSeen ((pre.map keyOf).filter (fun k => !(isProtoKey k)))
              ++ [keyOf r]).Nodup := by
            simp [List.nodup_append, firstSeen_nodup, hmem]
          rw [assocUpdate_map_shape _ _ _ _ hnd2]
          apply List.map_congr_left
          intro k hkmem
          rw [step_value_eq keyOf init add pre r k]

end Excel

namespace Excel

theorem assocGet_append {β : Type} (o1 o2 : List (String × β)) (k : String) :
    assocGet (o1 ++ o2) k = (assocGet o1 k).or (assocGet o2 k) := by
  unfold assocGet
  rw [List.find?_append]
  cases List.find? (fun p => p.1 == k) o1 <;> simp

theorem objSet_cons_ne (k0 : String) (v0 : ChartCell) (rest : Obj)
    (k : String) (v : ChartCell) (hb : (k0 == k) = false) :
    objSet ((k0, v0) :: rest) k v = (k0, v0) :: objSet rest k v := by
  simp only [objSet]
  rw [if_neg (by simp [hb])]

theorem objSet_cons_eq (k0 : String) (v0 : ChartCell) (rest : Obj)
    (k : String) (v : ChartCell) (hb : (k0 == k) = true) :
    objSet ((k0, v0) :: rest) k v = (k0, v) :: rest := by
  simp only [objSet]
  rw [if_pos hb]

theorem objSet_fresh (o : Obj) (k : String) (v : ChartCell)
    (h : assocGet o k = none) : objSet o k v = o ++ [(k, v)] := by
  induction o with
  | nil => rfl
  | cons p rest ih =>
      obtain ⟨k0, v0⟩ := p
      obtain ⟨hb, hrest⟩ := assocGet_cons_none h
      rw [objSet_cons_ne k0 v0 rest k v hb, List.cons_append]
      congr 1
      exact ih hrest

theorem objSet_append_absent (o1 o2 : Obj) (k : String) (v : ChartCell)
    (h : assocGet o1 k = none) : objSet (o1 ++ o2) k v = o1 ++ objSet o2 k v := by
  induction o1 with
  | nil => rfl
  | cons p rest ih =>
      obtain ⟨k0, v0⟩ := p
      obtain ⟨hb, hrest⟩ := assocGet_cons_none h
      rw [List.cons_append, objSet_cons_ne k0 v0 (rest ++ o2) k v hb,
        List.cons_append]
      congr 1
      exact ih hrest

theorem foldl_objSet_zero (fs : List String) :
    ∀ (o : Obj), fs.Nodup → (∀ f ∈ fs, assocGet o f = none) →
      fs.foldl (fun o f => objSet o f (ChartCell.n 0)) o
        = o ++ fs.map (fun f => (f, ChartCell.n 0)) := by
  induction fs with
  | nil => intro o _ _; simp
  | cons f rest ih =>
      intro o hnd habs
      obtain ⟨hf, hrnd⟩ := List.nodup_cons.mp hnd
      have habs2 : ∀ f2 ∈ rest, assocGet (o ++ [(f, ChartCell.n 0)]) f2 = none := by
        intro f2 hf2
        rw [assocGet_append, habs f2 (List.mem_cons_of_mem _ hf2)]
        have hbf : (f == f2) = false := by
          simp only [beq_eq_false_iff_ne, ne_eq]
          intro hh
          apply hf
          rw [hh]
          exact hf2
        simp [assocGet, List.find?_cons, hbf]
      rw [List.foldl_cons, objSet_fresh o f _ (habs f (List.mem_cons_self _ _)),
        ih (o ++ [(f, ChartCell.n 0)]) hrnd habs2]
      simp

theorem barInit_shape (x : String) (ys : List String) (k : String)
    (hnd : ys.Nodup) (hx : x ∉ ys) :
    barInit x ys k = (x, ChartCell.s k) :: ys.map (fun f => (f, ChartCell.n 0)) := by
  unfold barInit
  have habs : ∀ f ∈ ys, assocGet [(x, ChartCell.s k)] f = none := by
    intro f hf
    have hbf : (x == f) = false := by
      simp only [beq_eq_false_iff_ne, ne_eq]
      intro hh
      apply hx
      rw [hh]
      exact hf
    simp [assocGet, List.find?_cons, hbf]
  rw [foldl_objSet_zero ys [(x, ChartCell.s k)] hnd habs]
  rfl

theorem foldl_objAddNum (fs : List String) :
    ∀ (pre : Obj) (g c : String → ℚ), fs.Nodup →
      (∀ f ∈ fs, assocGet pre f = none) →
      fs.foldl (fun o f => objAddNum o f (c f))
          (pre ++ fs.map (fun f => (f, ChartCell.n (g f))))
        = pre ++ fs.map (fun f => (f, ChartCell.n (g f + c f))) := by
  induction fs with
  | nil => intro pre g c _ _; simp
  | cons f0 rest ih =>
      intro pre g c hnd habs
      obtain ⟨hf0, hrnd⟩ := List.nodup_cons.mp hnd
      rw [List.map_cons, List.foldl_cons]
      have hget : assocGet
          (pre ++ (f0, ChartCell.n (g f0)) :: rest.map (fun f => (f, ChartCell.n (g f)))) f0
          = some (ChartCell.n (g f0)) := by
        rw [assocGet_append, habs f0 (List.mem_cons_self _ _)]
        simp [assocGet, List.find?_cons]
      have hmatch : objAddNum
          (pre ++ (f0, ChartCell.n (g f0)) :: rest.map (fun f => (f, ChartCell.n (g f)))) f0 (c f0)
          = objSet
            (pre ++ (f0, ChartCell.n (g f0)) :: rest.map (fun f => (f, ChartCell.n (g f)))) f0
            (ChartCell.n (g f0 + c f0)) := by
        unfold objAddNum
        rw [hget]
      have hsetres : objSet
          (pre ++ (f0, ChartCell.n (g f0)) :: rest.map (fun f => (f, ChartCell.n (g f)))) f0
          (ChartCell.n (g f0 + c f0))
          = pre ++ (f0, ChartCell.n (g f0 + c f0)) :: rest.map (fun f => (f, ChartCell.n (g f))) := by
        rw [objSet_append_absent pre _ f0 _ (habs f0 (List.mem_cons_self _ _))]
        congr 1
        unfold objSet
        rw [if_pos (by simp)]
      rw [hmatch, hsetres]
      have habs2 : ∀ f ∈ rest, assocGet (pre ++ [(f0, ChartCell.n (g f0 + c f0))]) f = none := by
        intro f hf
        rw [assocGet_append, habs f (List.mem_cons_of_mem _ hf)]
        have hbf : (f0 == f) = false := by
          simp only [beq_eq_false_iff_ne, ne_eq]
          intro hh
          apply hf0
          rw [hh]
          exact hf
        simp [assocGet, List.find?_cons, hbf]
      rw [show pre ++ (f0, ChartCell.n (g f0 + c f0)) :: rest.map (fun f => (f, ChartCell.n (g f)))
            = (pre ++ [(f0, ChartCell.n (g f0 + c f0))]) ++ rest.map (fun f => (f, ChartCell.n (g f)))
          by simp]
      rw [ih (pre ++ [(f0, ChartCell.n (g f0 + c f0))]) g c hrnd habs2]
      simp

theorem rows_foldl_barAdd (x : String) (ys : List String) (k : String)
    (hnd : ys.Nodup) (hx : x ∉ ys) (rows : List Row) :
    ∀ g : String → ℚ,
      rows.foldl (barAdd ys)
          ((x, ChartCell.s k) :: ys.map (fun f => (f, ChartCell.n (g f))))
        = (x, ChartCell.s k) :: ys.map (fun f =>
            (f, ChartCell.n (g f + (rows.map (fun r => coerceNum r f)).sum))) := by
  induction rows with
  | nil =>
      intro g
      simp
  | cons r rest ih =>
      intro g
      rw [List.foldl_cons]
      have habs : ∀ f ∈ ys, assocGet [(x, ChartCell.s k)] f = none := by
        intro f hf
        have hbf : (x == f) = false := by
          simp only [beq_eq_false_iff_ne, ne_eq]
          intro hh
          apply hx
          rw [hh]
          exact hf
        simp [assocGet, List.find?_cons, hbf]
      have hstep : barAdd ys
          ((x, ChartCell.s k) :: ys.map (fun f => (f, ChartCell.n (g f)))) r
          = (x, ChartCell.s k) :: ys.map (fun f => (f, ChartCell.n (g f + coerceNum r f))) := by
        unfold barAdd
        have hfold := foldl_objAddNum ys [(x, ChartCell.s k)] g
          (fun f => coerceNum r f) hnd habs
        simpa using hfold
      rw [hstep, ih (fun f => g f + coerceNum r f)]
      congr 1
      apply List.map_congr_left
      intro f hf
      simp [add_assoc]

theorem barGroup_shape (data : List Row) (x : String) (ys : List String)
    (k : String) (hnd : ys.Nodup) (hx : x ∉ ys) :
    (data.filter (fun r => rowKey x r == k)).foldl (barAdd ys) (barInit x ys k)
      = (x, ChartCell.s k) ::
          ys.map (fun f => (f, ChartCell.n (ySum data x k f))) := by
  rw [barInit_shape x ys k hnd hx]
  rw [rows_foldl_barAdd x ys k hnd hx (data.filter (fun r => rowKey x r == k)) (fun _ => 0)]
  unfold ySum groupRows
  simp

theorem pie_rows_foldl (yf : String) (rows : List Row) :
    ∀ (k : String) (a : ℚ),
      rows.foldl (fun p r => (p.1, p.2 + coerceNum r yf)) (k, a)
        = (k, a + (rows.map (fun r => coerceNum r yf)).sum) := by
  induction rows with
  | nil => intro k a; simp
  | cons r rest ih =>
      intro k a
      rw [List.foldl_cons]
      have := ih k (a + coerceNum r yf)
      rw [show ((k, a).1, (k, a).2 + coerceNum r yf) = (k, a + coerceNum r yf) from rfl]
      rw [this]
      simp [add_assoc]

theorem mem_objectValuesKeys (ks : List String) (k : String) :
    k ∈ objectValuesKeys ks ↔ k ∈ ks := by
  unfold objectValuesKeys
  rw [List.mem_append, (List.perm_insertionSort _ _).mem_iff]
  constructor
  · rintro (h | h)
    · exact (List.mem_filter.mp h).1
    · exact (List.mem_filter.mp h).1
  · intro h
    by_cases hidx : isArrayIndex k = true
    · exact Or.inl (List.mem_filter.mpr ⟨h, hidx⟩)
    · refine Or.inr (List.mem_filter.mpr ⟨h, ?_⟩)
      revert hidx
      cases isArrayIndex k <;> simp

theorem mem_objectValues_shape {β : Type} (g : String → β) (ks : List String)
    {k : String} (hk : k ∈ ks) :
    g k ∈ objectValues (ks.map (fun a => (a, g a))) := by
  unfold objectValues
  rw [show (ks.map (fun a => (a, g a))).map Prod.fst = ks from by
      rw [List.map_map,
        show (Prod.fst ∘ fun a : String => (a, g a)) = id from rfl,
        List.map_id]]
  apply List.mem_filterMap.mpr
  exact ⟨k, (mem_objectValuesKeys ks k).mpr hk,
    by rw [assocGet_map_shape, if_pos hk]⟩

theorem mem_objectValues_shape2 {β : Type} (g : String → β) (ks : List String)
    {k : String} {v : β} (hk : k ∈ ks) (hv : g k = v) :
    v ∈ objectValues (ks.map (fun a => (a, g a))) := by
  rw [← hv]
  exact mem_objectValues_shape g ks hk

theorem chartData_bar_reduce (data : List Row) (x : String) (ys : List String)
    (hd : data ≠ []) (hx0 : x ≠ "") (hys0 : ys ≠ []) :
    chartData ChartType.bar data x ys = (barLineData data x ys).map ChartRow.obj := by
  unfold chartData
  have hcond : (data.isEmpty || x == "" || ys.isEmpty) = false := by
    simp [hd, hx0, hys0]
  simp only [hcond, Bool.false_eq_true, if_false]

theorem chartData_pie_reduce (data : List Row) (x : String) (ys : List String)
    (hd : data ≠ []) (hx0 : x ≠ "") (hys0 : ys ≠ []) :
    chartData ChartType.pie data x ys =
      (pieData data x ys).map (fun p => ChartRow.slice p.1 p.2) := by
  unfold chartData
  have hcond : (data.isEmpty || x == "" || ys.isEmpty) = false := by
    simp [hd, hx0, hys0]
  simp only [hcond, Bool.false_eq_true, if_false]

end Excel

namespace Excel

/-- C4 (amended): the grouping key is `"undefined"` for an x-value that is
missing, null, the empty string, or the number zero (all JS-falsy values
expressible in the data model), and the string form of the value
otherwise; and, provided no grouping key names an `Object.prototype`
member (for such keys the code never creates the bucket), every row of
the dataset lands in an output bucket so named, for bar/line and for pie
aggregation. -/
theorem chart_grouping_key (data : List Row) (x : String) (ys : List String)
    (hx0 : x ≠ "") (hys0 : ys ≠ []) (hnd : ys.Nodup) (hx : x ∉ ys)
    (hproto : ∀ r ∈ data, isProtoKey (rowKey x r) = false) :
    (∀ r : Row, getVal r x = none → rowKey x r = "undefined") ∧
    (∀ r : Row, getVal r x = some Value.vnull → rowKey x r = "undefined") ∧
    (∀ r : Row, getVal r x = some (Value.str "") → rowKey x r = "undefined") ∧
    (∀ r : Row, getVal r x = some (Value.num 0) → rowKey x r = "undefined") ∧
    (∀ (r : Row) (v : Value), getVal r x = some v → v ≠ Value.vnull →
      v ≠ Value.str "" → v ≠ Value.num 0 → rowKey x r = jsString (some v)) ∧
    (∀ r ∈ data, ∃ row ∈ chartData ChartType.bar data x ys,
      rowField row x = some (ChartCell.s (rowKey x r))) ∧
    (∀ r ∈ data, ∃ q : ℚ,
      ChartRow.slice (rowKey x r) q ∈ chartData ChartType.pie data x ys) := by
  refine ⟨?_, ?_, ?_, ?_, ?_, ?_, ?_⟩
  · intro r h
    unfold rowKey
    rw [h]
    rfl
  · intro r h
    unfold rowKey
    rw [h]
    rfl
  · intro r h
    unfold rowKey
    rw [h]
    rfl
  · intro r h
    unfold rowKey
    rw [h]
    rfl
  · intro r v h h1 h2 h3
    have hfalsy : jsFalsy (some v) = false := by
      cases v with
      | num q =>
          have hq : q ≠ 0 := fun hq => h3 (by rw [hq])
          simp [jsFalsy, hq]
      | str s =>
          have hs : s ≠ "" := fun hs => h2 (by rw [hs])
          simp [jsFalsy, hs]
      | vnull => exact absurd rfl h1
    unfold rowKey jsKeyOf
    rw [h, hfalsy]
    simp
  · intro r hr
    have hd : data ≠ [] := List.ne_nil_of_mem hr
    rw [chartData_bar_reduce data x ys hd hx0 hys0]
    unfold barLineData
    rw [groupFold_eq]
    have hkmem : rowKey x r ∈
        firstSeen ((data.map (rowKey x)).filter (fun k => !(isProtoKey k))) := by
      rw [mem_firstSeen, List.mem_filter]
      exact ⟨List.mem_map_of_mem _ hr, by simp [hproto r hr]⟩
    have hmem2 := mem_objectValues_shape
      (fun k => (data.filter (fun q => rowKey x q == k)).foldl (barAdd ys)
        (barInit x ys k)) _ hkmem
    refine ⟨ChartRow.obj ((data.filter (fun q => rowKey x q == rowKey x r)).foldl
      (barAdd ys) (barInit x ys (rowKey x r))),
      List.mem_map_of_mem _ hmem2, ?_⟩
    rw [barGroup_shape data x ys (rowKey x r) hnd hx]
    simp [rowField, assocGet, List.find?_cons]
  · intro r hr
    have hd : data ≠ [] := List.ne_nil_of_mem hr
    rw [chartData_pie_reduce data x ys hd hx0 hys0]
    unfold pieData
    rw [groupFold_eq]
    have hkmem : rowKey x r ∈
        firstSeen ((data.map (rowKey x)).filter (fun k => !(isProtoKey k))) := by
      rw [mem_firstSeen, List.mem_filter]
      exact ⟨List.mem_map_of_mem _ hr, by simp [hproto r hr]⟩
    have hval : (data.filter (fun q => rowKey x q == rowKey x r)).foldl
        (fun p q => (p.1, p.2 + coerceNum q (ys.headD ""))) (rowKey x r, 0)
        = (rowKey x r, ySum data x (rowKey x r) (ys.headD "")) := by
      rw [pie_rows_foldl]
      unfold ySum groupRows
      simp
    have hmem2 := mem_objectValues_shape2
      (fun k => (data.filter (fun q => rowKey x q == k)).foldl
        (fun p q => (p.1, p.2 + coerceNum q (ys.headD ""))) (k, 0)) _ hkmem hval
    refine ⟨ySum data x (rowKey x r) (ys.headD ""), ?_⟩
    have hfin := List.mem_map_of_mem
      (fun p : String × ℚ => ChartRow.slice p.1 p.2) hmem2
    exact hfin

/-- C4 counterexample, two parts.  The x-value `0` is present (not
missing), its string form is `"0"`, yet the row is grouped under the
literal `"undefined"` bucket, because `item[x] || 'undefined'` treats
every falsy value — including the number 0 — as missing.  And a row with
the truthy x-value `"toString"` lands in NO output bucket at all: the
inherited `Object.prototype.toString` makes `!groupedData[xValue]` false,
so the bucket is never created. -/
theorem chart_zero_key_cex :
    getVal [("b", Value.num 0), ("a", Value.num 1)] "b" = some (Value.num 0) ∧
    jsString (some (Value.num 0)) = "0" ∧
    (chartData ChartType.bar dZero "b" ["a"]).map (fun row => rowField row "b")
      = [some (ChartCell.s "undefined")] ∧
    getVal [("b", Value.str "toString"), ("a", Value.num 5)] "b"
      = some (Value.str "toString") ∧
    chartData ChartType.pie dProto "b" ["a"] = [] :=
  ⟨rfl, rfl, rfl, rfl, rfl⟩

/-- Witness for the amended C4 at Scenario C's dataset. -/
theorem chart_grouping_key_witness :
    ("b" ≠ "" ∧ (["a"] : List String) ≠ [] ∧
      (["a"] : List String).Nodup ∧ "b" ∉ (["a"] : List String) ∧
      ∀ r ∈ dScen, isProtoKey (rowKey "b" r) = false) ∧
    (∀ r ∈ dScen, ∃ row ∈ chartData ChartType.bar dScen "b" ["a"],
      rowField row "b" = some (ChartCell.s (rowKey "b" r))) :=
  ⟨⟨by decide, by decide, by decide, by decide, by decide⟩,
    (chart_grouping_key dScen "b" ["a"] (by decide) (by decide) (by decide)
      (by decide) (by decide)).2.2.2.2.2.1⟩

end Excel
